import Mathlib

/-!
Shallow embedding of `ota.py` (esp32-ota): a micropython OTA updater that
pulls files and folders from a GitHub repository tree listing.

Strings are modelled as `List Char`.  The filesystem is modelled explicitly
as an association list of files (path, content) plus a list of directories;
the POSIX calls used by the source (`os.remove`, `os.mkdir`, `open(p, 'w')`,
`open(p)`) are modelled as operations on this state, raising the errors
CPython raises.  External collaborators (the `re.match` of the `re` module, the
HTTP fetch in `urequests.get`, and the SHA1 digest) are parameters of the
functions that use them.
-/

namespace Ota

abbrev Str := List Char

/-- Boolean prefix test on character lists (used by the spec-modelled
backup parser and by the literal-pattern instantiation of `re.match`). -/
def pfx : Str → Str → Bool
  | [], _ => true
  | _ :: _, [] => false
  | a :: as, b :: bs => a == b && pfx as bs

/-- Boolean substring test: `hasSub pat s` is true iff `pat` occurs as a
contiguous substring of `s`. -/
def hasSub (pat : Str) : Str → Bool
  | [] => pfx pat []
  | c :: cs => pfx pat (c :: cs) || hasSub pat cs

/-- Split a string at the earliest occurrence of `delim`: returns the part
before the occurrence and the part after it, or `none` if `delim` does not
occur.  (Spec-modelled helper for the backup parser.) -/
def breakOn (delim : Str) : Str → Option (Str × Str)
  | [] => none
  | c :: cs =>
    if pfx delim (c :: cs) then some ([], (c :: cs).drop delim.length)
    else
      match breakOn delim cs with
      | some (pre, post) => some (c :: pre, post)
      | none => none

/-- Everything before the last '/' of a relative path; empty when the path
has no '/' (its parent is then the current directory).  Models
`os.path.dirname` for the normalized relative paths this program uses. -/
def dirname : Str → Str
  | [] => []
  | c :: cs => if cs.contains '/' then c :: dirname cs else []

/-- Split a path on '/' into components (model of the component split used
by `os.path.normpath`). -/
def splitSlash : Str → List Str
  | [] => [[]]
  | c :: cs =>
    if c == '/' then [] :: splitSlash cs
    else
      match splitSlash cs with
      | g :: gs => (c :: g) :: gs
      | [] => [[c]]

/-- Join path components with '/'. -/
def joinSlash : List Str → Str
  | [] => []
  | [x] => x
  | x :: xs => x ++ '/' :: joinSlash xs

/-- Stack pass of `os.path.normpath`: drops `.` components (already removed
by the caller) and resolves `..` against the accumulated stack, keeping
leading `..` components. -/
def normStack (acc : List Str) : List Str → List Str
  | [] => acc.reverse
  | c :: cs =>
    if c == "..".toList then
      match acc with
      | [] => normStack [c] cs
      | t :: ts => if t == "..".toList then normStack (c :: acc) cs else normStack ts cs
    else normStack (c :: acc) cs

/-- Model of `os.path.normpath` for the relative POSIX paths this program
manipulates: collapse repeated slashes, drop `.` components, resolve `..`,
and return `.` for an empty result. -/
def normpath (p : Str) : Str :=
  if p == [] then ['.']
  else
    let comps := (splitSlash p).filter (fun c => !(c == []) && !(c == ['.']))
    let body := joinSlash (normStack [] comps)
    if pfx ['/'] p then '/' :: body
    else if body == [] then ['.'] else body

/-- Filesystem errors raised by the CPython calls the source uses, plus the
network failure of `urequests.get` and the write-on-read-handle failure of
`io`. -/
inductive OSErr where
  | fileNotFound (p : Str)
  | isADirectory (p : Str)
  | fileExists (p : Str)
  | unsupportedOperation
  | networkError
deriving DecidableEq, Repr

/-- Local filesystem state: files as an association list path ↦ content,
plus the set (list) of existing directories.  Paths are normalized relative
paths. -/
structure FS where
  files : List (Str × Str)
  dirs : List Str
deriving DecidableEq, Repr

/-- `p` names an existing regular file. -/
def FS.isFile (fs : FS) (p : Str) : Bool :=
  fs.files.any (fun e => e.1 == p)

/-- `p` names an existing directory. -/
def FS.isDir (fs : FS) (p : Str) : Bool :=
  fs.dirs.any (fun d => d == p)

/-- Model of `os.path.exists`. -/
def FS.pathExists (fs : FS) (p : Str) : Bool :=
  fs.isFile p || fs.isDir p

/-- Content of the file at `p`, if any. -/
def FS.content (fs : FS) (p : Str) : Option Str :=
  (fs.files.find? (fun e => e.1 == p)).map (fun e => e.2)

/-- The parent of `p` exists as a directory (the current directory always
exists). -/
def FS.parentOk (fs : FS) (p : Str) : Bool :=
  dirname p == [] || fs.isDir (dirname p)

/-- Model of `os.remove`: deletes a regular file; raises `IsADirectoryError`
on a directory and `FileNotFoundError` on a missing path. -/
def FS.remove (fs : FS) (p : Str) : Except OSErr FS :=
  if fs.isDir p then .error (.isADirectory p)
  else if fs.isFile p then
    .ok { fs with files := fs.files.filter (fun e => !(e.1 == p)) }
  else .error (.fileNotFound p)

/-- Model of `open(p, 'w')`: truncates an existing file or creates an empty
one; raises `IsADirectoryError` on a directory and `FileNotFoundError` when
the parent directory is missing. -/
def FS.openW (fs : FS) (p : Str) : Except OSErr FS :=
  if fs.isDir p then .error (.isADirectory p)
  else if fs.parentOk p then
    .ok { fs with files := (p, []) :: fs.files.filter (fun e => !(e.1 == p)) }
  else .error (.fileNotFound p)

/-- Writing `content` through a handle opened with `open(p, 'w')`. -/
def FS.writeTo (fs : FS) (p : Str) (content : Str) : FS :=
  { fs with files := (p, content) :: fs.files.filter (fun e => !(e.1 == p)) }

/-- Model of `open(p)` (default read mode) followed by reading: returns the
content; raises `IsADirectoryError` on a directory and `FileNotFoundError`
on a missing path. -/
def FS.openR (fs : FS) (p : Str) : Except OSErr Str :=
  if fs.isDir p then .error (.isADirectory p)
  else
    match fs.content p with
    | some c => .ok c
    | none => .error (.fileNotFound p)

/-- Model of `os.mkdir`: creates a single directory; raises
`FileExistsError` if the path exists and `FileNotFoundError` if the parent
directory is missing.  It does not create parent segments. -/
def FS.mkdir (fs : FS) (p : Str) : Except OSErr FS :=
  if fs.pathExists p then .error (.fileExists p)
  else if fs.parentOk p then .ok { fs with dirs := p :: fs.dirs }
  else .error (.fileNotFound p)

/-- One entry of the GitHub tree listing (`class GitTreeElement`).  The
constructor of the source normalizes the path; see `mkGitTreeElement`. -/
structure GitTreeElement where
  path : Str
  mode : Str
  type : Str
  sha : Str
  size : Nat
  url : Str
deriving DecidableEq, Repr

/-- `GitTreeElement.__init__`: stores `os.path.normpath(path)` and the other
fields unchanged (`size` defaults to 0 at the call sites that omit it). -/
def mkGitTreeElement (path mode type sha url : Str) (size : Nat := 0) : GitTreeElement :=
  ⟨normpath path, mode, type, sha, size, url⟩

/-- The GitHub tree response (`class GitTree`): top-level sha and url, the
list of entries, and the `truncated` flag of the response. -/
structure GitTree where
  sha : Str
  url : Str
  tree : List GitTreeElement
  truncated : Bool
deriving DecidableEq, Repr

/-- `GitManager.pull_file(destination, file_path)`: opens the destination
with `open(_, 'w')` (truncating or creating it), then fetches the remote
content (`_get_file_content`, i.e. `urequests.get`), then writes the fetched
text through the open handle.  `fetch` is the transport collaborator; a
failed fetch raises after the destination has already been truncated. -/
def pullFile (fetch : Str → Except OSErr Str) (fs : FS) (dst src : Str) :
    FS × Option OSErr :=
  match fs.openW dst with
  | .error e => (fs, some e)
  | .ok fs1 =>
    match fetch src with
    | .error e => (fs1, some e)
    | .ok content => (fs1.writeTo dst content, none)

/-- One iteration of the loop body of `OTA.pull_repo` on tree entry `item`.
`rm` is the `re.match` collaborator and `ignoreList` the active ignore
list.  The source checks the ignore list but only logs a warning — there is
no `continue` — so a matching entry falls through to the update logic.
A `blob` entry is deleted if it exists, then pulled; a `tree` entry is
created with `os.mkdir` when it does not exist; anything else (including a
`tree` whose path already exists) only logs an error. -/
def pullRepoStep (rm : Str → Str → Bool) (ignoreList : List Str)
    (fetch : Str → Except OSErr Str) (fs : FS) (item : GitTreeElement) :
    FS × Option OSErr :=
  let _skipLogged := ignoreList.any (fun r => rm r item.path)
  if item.type == "blob".toList then
    if fs.pathExists item.path then
      match fs.remove item.path with
      | .error e => (fs, some e)
      | .ok fs1 => pullFile fetch fs1 item.path item.path
    else pullFile fetch fs item.path item.path
  else if item.type == "tree".toList && !(fs.pathExists item.path) then
    match fs.mkdir item.path with
    | .error e => (fs, some e)
    | .ok fs1 => (fs1, none)
  else (fs, none)

/-- `OTA.pull_repo`: iterate over the tree entries in listing order.  An
exception raised while processing one entry propagates and aborts the run,
keeping the mutations made so far. -/
def pullRepo (rm : Str → Str → Bool) (ignoreList : List Str)
    (fetch : Str → Except OSErr Str) : List GitTreeElement → FS → FS × Option OSErr
  | [], fs => (fs, none)
  | item :: rest, fs =>
    match pullRepoStep rm ignoreList fetch fs item with
    | (fs1, none) => pullRepo rm ignoreList fetch rest fs1
    | (fs1, some e) => (fs1, some e)

/-- `OTA.pull_repo` run against a fetched `GitTree` (the source iterates
`self.git.tree.tree`; no other field of the response is consulted). -/
def pullRepoGit (rm : Str → Str → Bool) (ignoreList : List Str)
    (fetch : Str → Except OSErr Str) (gt : GitTree) (fs : FS) : FS × Option OSErr :=
  pullRepo rm ignoreList fetch gt.tree fs

/-- `OTA._filter_ignore_items`: drop every item whose path matches some
pattern of the ignore list under `re.match` (`rm`). -/
def filterIgnoreItems (rm : Str → Str → Bool) (ignoreList : List Str) :
    List (Str × Str) → List (Str × Str)
  | [] => []
  | item :: rest =>
    if ignoreList.any (fun r => rm r item.1) then filterIgnoreItems rm ignoreList rest
    else item :: filterIgnoreItems rm ignoreList rest

/-- `OTA._build_internal_tree`: the recursive directory listing
(`_list_dir` on the root path) paired with the SHA1 hex digest of the content of each file
(`_get_sha`).  The recursive walk is modelled by the flat file list of the
filesystem state; `sha1hex` is the digest collaborator. -/
def buildInternalTreeRaw (sha1hex : Str → Str) (fs : FS) : List (Str × Str) :=
  fs.files.map (fun e => (e.1, sha1hex e.2))

/-- The per-item loop body of `OTA.backup_all`: each listed file is opened
for reading, and the backup handle — opened without a mode, hence
read-only — is written to, which raises `io.UnsupportedOperation` at the
first item. -/
def backupLoop (fs : FS) : List (Str × Str) → FS × Option OSErr
  | [] => (fs, none)
  | item :: _ =>
    match fs.openR item.1 with
    | .error e => (fs, some e)
    | .ok _ => (fs, some .unsupportedOperation)

/-- `OTA.backup_all`: builds the unfiltered internal tree, then does
`open` on the backup file `ota.backup` — read mode, since no mode argument is given — and
runs the write loop against that read-only handle. -/
def backupAll (sha1hex : Str → Str) (fs : FS) : FS × Option OSErr :=
  match fs.openR "ota.backup".toList with
  | .error e => (fs, some e)
  | .ok _ => backupLoop fs (buildInternalTreeRaw sha1hex fs)

/-- The framing `OTA.backup_all` attempts to write for one file: the header
line produced by its first write and the delimited content produced by its
second write. -/
def backupRecord (path sha content : Str) : Str :=
  "FN:SHA1".toList ++ path ++ [','] ++ sha ++ ['\n'] ++
    "---".toList ++ content ++ "---".toList ++ ['\n']

/-- The archive the loop of `backup_all` would emit for a manifest: the
concatenation of the record of every (path, sha) item, with content
supplied by the `readFile` collaborator. -/
def backupArchive (readFile : Str → Str) : List (Str × Str) → Str
  | [] => []
  | item :: rest => backupRecord item.1 item.2 (readFile item.1) ++ backupArchive readFile rest

/-- The content delimiter of the backup framing. -/
def bkDelim : Str := "---".toList ++ ['\n']

/-- Modelled from the spec: parsing one record of the backup archive "with
matching framing" (no parser exists in the source).  Expects the
`FN:SHA1` magic, reads the path up to the first ',', the fingerprint up to
the first newline, the literal `---`, and the content up to the earliest
occurrence of the closing delimiter; returns (path, fingerprint) and the
rest of the archive. -/
def parseRecord (s : Str) : Option ((Str × Str) × Str) :=
  if pfx "FN:SHA1".toList s then
    match breakOn [','] (s.drop 7) with
    | none => none
    | some (path, s2) =>
      match breakOn ['\n'] s2 with
      | none => none
      | some (fp, s3) =>
        if pfx "---".toList s3 then
          match breakOn bkDelim (s3.drop 3) with
          | none => none
          | some (_, s5) => some ((path, fp), s5)
        else none
  else none

/-- Modelled from the spec: re-parsing a whole backup archive into its
(path, fingerprint) records.  `fuel` bounds the number of records; every
record is at least one character long, so any `fuel` at or above the
record count suffices. -/
def parseBackup : Nat → Str → Option (List (Str × Str))
  | _, [] => some []
  | 0, _ :: _ => none
  | fuel + 1, c :: cs =>
    match parseRecord (c :: cs) with
    | none => none
    | some (r, rest) => (parseBackup fuel rest).map (fun l => r :: l)

/-- A manifest item the backup framing can round-trip: the path contains no
',', the fingerprint contains no newline, and the content of the file does not
contain the closing delimiter sequence. -/
def saneEntry (readFile : Str → Str) (e : Str × Str) : Prop :=
  (',' ∉ e.1) ∧ ('\n' ∉ e.2) ∧ hasSub bkDelim (readFile e.1) = false

instance (readFile : Str → Str) (e : Str × Str) : Decidable (saneEntry readFile e) := by
  unfold saneEntry; infer_instance

/-- The request headers of `GitManager`: the dictionary literal
holding the User-Agent value ota-esp32 and an optional authorization entry.  In
the source this dictionary is a class attribute, shared by every instance;
the shared dictionary is threaded through constructions explicitly. -/
structure Headers where
  userAgent : Str
  auth : Option Str
deriving DecidableEq, Repr

/-- The class-level initial value of `GitManager.headers`. -/
def initHeaders : Headers :=
  { userAgent := "ota-esp32".toList, auth := none }

/-- The header mutation performed by `GitManager.__init__`: when the token
is non-empty, the constructor stores the value bearer-space-token under the
authorization key, writing
through to the shared class-level dictionary; an empty token leaves the
dictionary untouched (there is no deletion branch). -/
def gitManagerInitHeaders (token : Str) (h : Headers) : Headers :=
  if token == [] then h
  else { h with auth := some ("bearer ".toList ++ token) }

/-- `re.match` restricted to literal patterns (no metacharacters): the
`re.match` of CPython anchors at the start of the string, so a literal
pattern matches exactly when the string starts with it. -/
def litMatch (pat path : Str) : Bool := pfx pat path

/-- The empty local filesystem (fixture for concrete evaluations). -/
def fsEmpty : FS := { files := [], dirs := [] }

/-- A `blob` tree entry at path `p` (fixture for concrete evaluations). -/
def blobItem (p : Str) : GitTreeElement :=
  { path := p, mode := "100644".toList, type := "blob".toList,
    sha := "s0".toList, size := 0, url := "u0".toList }

/-- A `tree` tree entry at path `p` (fixture for concrete evaluations). -/
def treeItem (p : Str) : GitTreeElement :=
  { path := p, mode := "040000".toList, type := "tree".toList,
    sha := "s0".toList, size := 0, url := "u0".toList }

/-- A fetch collaborator that always succeeds with content `c` (fixture). -/
def fetchConst (c : Str) : Str → Except OSErr Str := fun _ => .ok c

/-- A fetch collaborator that always fails with a network error (fixture). -/
def fetchFail : Str → Except OSErr Str := fun _ => .error .networkError

end Ota

namespace Ota

/-! ### Helper lemmas -/

/-- A list is a prefix of itself followed by anything. -/
theorem pfx_append_self : ∀ (xs ys : Str), pfx xs (xs ++ ys) = true
  | [], _ => rfl
  | x :: xs, ys => by simp [pfx, pfx_append_self xs ys]

/-- Splitting at a single character that does not occur in the part before
it finds exactly that occurrence. -/
theorem breakOn_char (ch : Char) (u rest : Str) (h : ch ∉ u) :
    breakOn [ch] (u ++ ch :: rest) = some (u, rest) := by
  induction u with
  | nil => simp [breakOn, pfx]
  | cons x xs ih =>
    have hx : ¬(ch = x) := fun hc => h (by simp [hc])
    have h2 : ch ∉ xs := fun hc => h (by simp [hc])
    have hpf : pfx [ch] (x :: (xs ++ ch :: rest)) = false := by
      simp only [pfx, Bool.and_true]
      exact beq_eq_false_iff_ne.mpr hx
    rw [List.cons_append]
    unfold breakOn
    simp [hpf, ih h2]

/-- The delimiter of the backup framing, spelled out. -/
theorem bkDelim_eq : bkDelim = ['-', '-', '-', '\n'] := rfl

/-- A spanning occurrence of the backup delimiter is impossible: when the
delimiter is a prefix of `u ++ bkDelim ++ rest` with `u` nonempty, it is
already a prefix of `u`. -/
theorem pfx_bkDelim_span : ∀ (u rest : Str), u ≠ [] →
    pfx bkDelim (u ++ (bkDelim ++ rest)) = true → pfx bkDelim u = true
  | [], _, hne, _ => absurd rfl hne
  | [a], rest, _, h => by
    rw [bkDelim_eq] at h; simp [pfx] at h
  | [a, b], rest, _, h => by
    rw [bkDelim_eq] at h; simp [pfx] at h
  | [a, b, c], rest, _, h => by
    rw [bkDelim_eq] at h; simp [pfx] at h
  | a :: b :: c :: d :: u, rest, _, h => by
    rw [bkDelim_eq] at h ⊢
    simp [pfx] at h ⊢
    exact h

/-- Splitting at the backup delimiter after content that does not contain
it finds exactly the closing delimiter. -/
theorem breakOn_bkDelim (u rest : Str) (h : hasSub bkDelim u = false) :
    breakOn bkDelim (u ++ (bkDelim ++ rest)) = some (u, rest) := by
  induction u with
  | nil =>
    rw [List.nil_append, bkDelim_eq]
    simp [breakOn, pfx, List.drop]
  | cons x xs ih =>
    have hparts : pfx bkDelim (x :: xs) = false ∧ hasSub bkDelim xs = false := by
      simpa [hasSub] using h
    have hnp : pfx bkDelim ((x :: xs) ++ (bkDelim ++ rest)) = false := by
      cases hb : pfx bkDelim ((x :: xs) ++ (bkDelim ++ rest)) with
      | false => rfl
      | true =>
        have hsp : pfx bkDelim (x :: xs) = true :=
          pfx_bkDelim_span (x :: xs) rest (by simp) hb
        rw [hparts.1] at hsp; cases hsp
    have hstep : breakOn bkDelim (xs ++ (bkDelim ++ rest)) = some (xs, rest) :=
      ih hparts.2
    rw [List.cons_append]
    unfold breakOn
    rw [List.cons_append] at hnp
    simp [hnp, hstep]

/-- The magic header of a backup record, spelled out. -/
theorem magic_eq : "FN:SHA1".toList = ['F', 'N', ':', 'S', 'H', 'A', '1'] := rfl

/-- A backup record followed by anything, in head-normal form. -/
theorem backupRecord_append (p fp c rest : Str) :
    backupRecord p fp c ++ rest =
      'F' :: 'N' :: ':' :: 'S' :: 'H' :: 'A' :: '1' ::
        (p ++ ',' :: (fp ++ '\n' :: ('-' :: '-' :: '-' :: (c ++ (bkDelim ++ rest))))) := by
  simp [backupRecord, bkDelim_eq, magic_eq]

/-- Parsing one record of a well-behaved backup archive recovers exactly the
path and fingerprint that were serialized, leaving the rest untouched. -/
theorem parseRecord_backupRecord (p fp c rest : Str)
    (hp : ',' ∉ p) (hfp : '\n' ∉ fp) (hc : hasSub bkDelim c = false) :
    parseRecord (backupRecord p fp c ++ rest) = some ((p, fp), rest) := by
  rw [backupRecord_append]
  have h1 : pfx "FN:SHA1".toList
      ('F' :: 'N' :: ':' :: 'S' :: 'H' :: 'A' :: '1' ::
        (p ++ ',' :: (fp ++ '\n' :: ('-' :: '-' :: '-' :: (c ++ (bkDelim ++ rest)))))) = true :=
    pfx_append_self "FN:SHA1".toList _
  have hdrop : List.drop 7
      ('F' :: 'N' :: ':' :: 'S' :: 'H' :: 'A' :: '1' ::
        (p ++ ',' :: (fp ++ '\n' :: ('-' :: '-' :: '-' :: (c ++ (bkDelim ++ rest)))))) =
      p ++ ',' :: (fp ++ '\n' :: ('-' :: '-' :: '-' :: (c ++ (bkDelim ++ rest)))) := rfl
  have hb1 : breakOn [','] (p ++ ',' :: (fp ++ '\n' :: ('-' :: '-' :: '-' :: (c ++ (bkDelim ++ rest)))))
      = some (p, fp ++ '\n' :: ('-' :: '-' :: '-' :: (c ++ (bkDelim ++ rest)))) :=
    breakOn_char ',' p _ hp
  have hb2 : breakOn ['\n'] (fp ++ '\n' :: ('-' :: '-' :: '-' :: (c ++ (bkDelim ++ rest))))
      = some (fp, '-' :: '-' :: '-' :: (c ++ (bkDelim ++ rest))) :=
    breakOn_char '\n' fp _ hfp
  have h3 : pfx "---".toList ('-' :: '-' :: '-' :: (c ++ (bkDelim ++ rest))) = true :=
    pfx_append_self "---".toList _
  have hdrop3 : List.drop 3 ('-' :: '-' :: '-' :: (c ++ (bkDelim ++ rest))) =
      c ++ (bkDelim ++ rest) := rfl
  have hbd : breakOn bkDelim (c ++ (bkDelim ++ rest)) = some (c, rest) :=
    breakOn_bkDelim c rest hc
  unfold parseRecord
  simp only [h1, if_true, hdrop, hb1, hb2, h3, hdrop3, hbd]

/-- C8 (amended): parsing a serialized backup archive recovers the manifest
provided every path is comma-free, every fingerprint is newline-free, and no
content contains the closing delimiter; any fuel at or above the record
count suffices. -/
theorem c8_backup_roundtrip_on_sane_manifests (readFile : Str → Str)
    (items : List (Str × Str)) (fuel : Nat) (hf : items.length ≤ fuel)
    (hs : ∀ e ∈ items, saneEntry readFile e) :
    parseBackup fuel (backupArchive readFile items) = some items := by
  induction items generalizing fuel with
  | nil => cases fuel <;> rfl
  | cons it rest ih =>
    cases fuel with
    | zero => exact absurd hf (by simp)
    | succ f =>
      obtain ⟨h1, h2, h3⟩ := hs it (List.mem_cons_self it rest)
      have hrec := parseRecord_backupRecord it.1 it.2 (readFile it.1)
        (backupArchive readFile rest) h1 h2 h3
      have hih : parseBackup f (backupArchive readFile rest) = some rest :=
        ih f (Nat.le_of_succ_le_succ hf) (fun e he => hs e (List.mem_cons_of_mem _ he))
      have harch : backupArchive readFile (it :: rest) =
          backupRecord it.1 it.2 (readFile it.1) ++ backupArchive readFile rest := rfl
      rw [harch, backupRecord_append]
      rw [backupRecord_append] at hrec
      simp only [parseBackup, hrec, hih]
      rfl

/-- C8 (counterexample): with a file whose content contains the delimiter
bytes, re-parsing the archive does not recover the manifest. -/
theorem c8_counterexample_delimiter_in_content :
    hasSub bkDelim ("a\n---\nb".toList) = true
    ∧ ¬(parseBackup 2
          (backupArchive (fun _ => "a\n---\nb".toList) [("a".toList, "11".toList)])
        = some [("a".toList, "11".toList)]) := by
  decide

/-- C8 (witness): the round-trip theorem applied to a concrete two-entry
manifest whose contents are delimiter-free. -/
theorem c8_backup_roundtrip_witness :
    ([(("a/b".toList : Str), ("ff00".toList : Str)), ("c".toList, "11".toList)].length ≤ 2)
    ∧ parseBackup 2
        (backupArchive (fun p => if p == "a/b".toList then "x-y\nz".toList else [])
          [("a/b".toList, "ff00".toList), ("c".toList, "11".toList)])
      = some [("a/b".toList, "ff00".toList), ("c".toList, "11".toList)] :=
  ⟨by decide,
    c8_backup_roundtrip_on_sane_manifests
      (fun p => if p == "a/b".toList then "x-y\nz".toList else [])
      [("a/b".toList, "ff00".toList), ("c".toList, "11".toList)] 2
      (by decide) (by decide)⟩

/-- C7: the ignore filter is idempotent — filtering an already filtered
manifest changes nothing, for every matcher, rule list and manifest. -/
theorem c7_filter_ignore_idempotent (rm : Str → Str → Bool) (ignoreList : List Str)
    (tree : List (Str × Str)) :
    filterIgnoreItems rm ignoreList (filterIgnoreItems rm ignoreList tree) =
      filterIgnoreItems rm ignoreList tree := by
  induction tree with
  | nil => rfl
  | cons it rest ih =>
    by_cases hm : ignoreList.any (fun r => rm r it.1) = true
    · simp [filterIgnoreItems, hm, ih]
    · simp [filterIgnoreItems, hm, ih]

/-- C1: evaluation at the failing input — an entry whose path matches an
ignore rule is still deleted and rewritten by `pull_repo` (the source logs
the skip but has no continue), contradicting the documented ignore
semantics. -/
theorem c1_ignored_entry_still_rewritten :
    (["secrets.py".toList].any
        (fun r => litMatch r (blobItem "secrets.py".toList).path) = true)
    ∧ (pullRepo litMatch ["secrets.py".toList] (fetchConst "new".toList)
          [blobItem "secrets.py".toList]
          { files := [("secrets.py".toList, "old".toList)], dirs := [] }).1.content
        "secrets.py".toList = some "new".toList
    ∧ (pullRepo litMatch ["secrets.py".toList] (fetchConst "new".toList)
          [blobItem "secrets.py".toList]
          { files := [("secrets.py".toList, "old".toList)], dirs := [] }).2 = none := by
  decide

/-- A failed fetch makes `pull_file` end in an error, whatever the
destination state. -/
theorem pullFile_fetch_error (fetch : Str → Except OSErr Str) (fs : FS)
    (dst src : Str) (e : OSErr) (hfe : fetch src = Except.error e) :
    ∃ e2, (pullFile fetch fs dst src).2 = some e2 := by
  unfold pullFile
  cases hw : fs.openW dst with
  | error e1 => exact ⟨e1, rfl⟩
  | ok fs1 => simp [hfe]

/-- A blob entry whose fetch fails always makes the loop body end in an
error. -/
theorem pullRepoStep_blob_fetch_error (rm : Str → Str → Bool) (ig : List Str)
    (fetch : Str → Except OSErr Str) (fs : FS) (item : GitTreeElement) (e : OSErr)
    (hb : item.type = "blob".toList) (hfe : fetch item.path = Except.error e) :
    ∃ e2, (pullRepoStep rm ig fetch fs item).2 = some e2 := by
  simp only [pullRepoStep, hb, beq_self_eq_true, if_true]
  by_cases hex : fs.pathExists item.path = true
  · simp only [hex, if_true]
    cases hr : fs.remove item.path with
    | error e1 => exact ⟨e1, rfl⟩
    | ok fs1 => exact pullFile_fetch_error fetch fs1 item.path item.path e hfe
  · simp only [hex, if_false]
    exact pullFile_fetch_error fetch fs item.path item.path e hfe

/-- When the loop body errors on the first entry, the whole run returns
that result: later entries are never reached. -/
theorem pullRepo_cons_error (rm : Str → Str → Bool) (ig : List Str)
    (fetch : Str → Except OSErr Str) (item : GitTreeElement)
    (rest : List GitTreeElement) (fs : FS)
    (h : (pullRepoStep rm ig fetch fs item).2.isSome = true) :
    pullRepo rm ig fetch (item :: rest) fs = pullRepoStep rm ig fetch fs item := by
  cases hst : pullRepoStep rm ig fetch fs item with
  | mk fs1 oe =>
    cases oe with
    | none => rw [hst] at h; simp at h
    | some e => simp only [pullRepo, hst]

/-- C2 (amended): a fetch failure on a FILE entry is not recorded and
skipped — the exception aborts the run: the result of processing the
remaining entries is exactly the result of the failing entry alone, and
the run ends in an error instead of a completed report. -/
theorem c2_fetch_failure_aborts_run (rm : Str → Str → Bool) (ig : List Str)
    (fetch : Str → Except OSErr Str) (item : GitTreeElement)
    (rest : List GitTreeElement) (fs : FS) (e : OSErr)
    (hb : item.type = "blob".toList) (hfe : fetch item.path = Except.error e) :
    pullRepo rm ig fetch (item :: rest) fs = pullRepoStep rm ig fetch fs item
    ∧ (pullRepo rm ig fetch (item :: rest) fs).2.isSome = true := by
  obtain ⟨e2, h2⟩ := pullRepoStep_blob_fetch_error rm ig fetch fs item e hb hfe
  have hsome : (pullRepoStep rm ig fetch fs item).2.isSome = true := by rw [h2]; rfl
  have habort := pullRepo_cons_error rm ig fetch item rest fs hsome
  exact ⟨habort, by rw [habort]; exact hsome⟩

/-- C2 (counterexample): with a failing fetch on entry a followed by a
pullable entry b, the run aborts with the network error and entry b is
never written, against the record-FAILED-and-continue claim. -/
theorem c2_counterexample_abort_skips_rest :
    (pullRepo litMatch []
        (fun p => if p == "a".toList then Except.error OSErr.networkError
                  else Except.ok "x".toList)
        [blobItem "a".toList, blobItem "b".toList] fsEmpty).2
      = some OSErr.networkError
    ∧ (pullRepo litMatch []
        (fun p => if p == "a".toList then Except.error OSErr.networkError
                  else Except.ok "x".toList)
        [blobItem "a".toList, blobItem "b".toList] fsEmpty).1.content "b".toList
      = none := by
  decide

/-- C2 (witness): the abort theorem applied to a concrete run of two blob
entries whose first fetch fails. -/
theorem c2_fetch_failure_aborts_run_witness :
    (blobItem "a".toList).type = "blob".toList
    ∧ fetchFail (blobItem "a".toList).path = Except.error OSErr.networkError
    ∧ pullRepo litMatch [] fetchFail [blobItem "a".toList, blobItem "b".toList] fsEmpty
        = pullRepoStep litMatch [] fetchFail fsEmpty (blobItem "a".toList)
    ∧ (pullRepo litMatch [] fetchFail [blobItem "a".toList, blobItem "b".toList]
        fsEmpty).2.isSome = true :=
  ⟨rfl, rfl,
    (c2_fetch_failure_aborts_run litMatch [] fetchFail (blobItem "a".toList)
      [blobItem "b".toList] fsEmpty OSErr.networkError rfl rfl).1,
    (c2_fetch_failure_aborts_run litMatch [] fetchFail (blobItem "a".toList)
      [blobItem "b".toList] fsEmpty OSErr.networkError rfl rfl).2⟩

/-- C3 (amended): the truncated flag of a fetched manifest is stored but
never consulted — `pull_repo` behaves identically whether it is true or
false, reconciling the (possibly partial) listing either way. -/
theorem c3_truncated_flag_never_consulted (rm : Str → Str → Bool) (ig : List Str)
    (fetch : Str → Except OSErr Str) (sha url : Str)
    (tree : List GitTreeElement) (fs : FS) :
    pullRepoGit rm ig fetch ⟨sha, url, tree, true⟩ fs =
      pullRepoGit rm ig fetch ⟨sha, url, tree, false⟩ fs := rfl

/-- C3 (counterexample): a manifest with the truncated flag set is still
reconciled — the run mutates the filesystem (a file appears), against the
claim that a truncated manifest is fatal and causes zero mutations. -/
theorem c3_counterexample_truncated_still_applied :
    (GitTree.mk "s".toList "u".toList [blobItem "a".toList] true).truncated = true
    ∧ fsEmpty.content "a".toList = none
    ∧ (pullRepoGit litMatch [] (fetchConst "x".toList)
          (GitTree.mk "s".toList "u".toList [blobItem "a".toList] true)
          fsEmpty).1.content "a".toList = some "x".toList := by
  decide

/-- Helper for the blob branch: pulling into a path that is not a
directory and whose parent exists, with a failing fetch, truncates the
destination to an empty file and returns the fetch error. -/
theorem pullFile_error_after_truncate (fetch : Str → Except OSErr Str) (fs1 : FS)
    (p : Str) (e : OSErr) (hd1 : fs1.isDir p = false) (hp1 : fs1.parentOk p = true)
    (hfe : fetch p = Except.error e) :
    pullFile fetch fs1 p p =
      ({ fs1 with files := (p, []) :: fs1.files.filter (fun e2 => !(e2.1 == p)) }, some e) := by
  unfold pullFile FS.openW
  simp [hd1, hp1, hfe]

/-- C4 (amended): for a FILE entry at an existing regular file path (with
an existing parent directory) the engine deletes first — `os.remove`, then
the truncating `open(_, 'w')`, then the fetch — so when the fetch fails the
old content is already gone and the destination is left as an empty file,
together with the error. -/
theorem c4_delete_and_truncate_before_fetch (rm : Str → Str → Bool) (ig : List Str)
    (fetch : Str → Except OSErr Str) (item : GitTreeElement) (fs : FS) (e : OSErr)
    (hb : item.type = "blob".toList)
    (hf : fs.isFile item.path = true) (hd : fs.isDir item.path = false)
    (hpp : fs.parentOk item.path = true)
    (hfe : fetch item.path = Except.error e) :
    (pullRepoStep rm ig fetch fs item).2 = some e
    ∧ (pullRepoStep rm ig fetch fs item).1.content item.path = some [] := by
  have hex : fs.pathExists item.path = true := by
    simp [FS.pathExists, hf]
  have hrm : fs.remove item.path =
      Except.ok { fs with files := fs.files.filter (fun e2 => !(e2.1 == item.path)) } := by
    unfold FS.remove
    simp [hd, hf]
  have hstep : pullRepoStep rm ig fetch fs item =
      pullFile fetch { fs with files := fs.files.filter (fun e2 => !(e2.1 == item.path)) }
        item.path item.path := by
    simp [pullRepoStep, hb, hex, hrm]
  have hpf := pullFile_error_after_truncate fetch
    { fs with files := fs.files.filter (fun e2 => !(e2.1 == item.path)) }
    item.path e hd hpp hfe
  rw [hstep, hpf]
  refine ⟨rfl, ?_⟩
  simp [FS.content, List.find?]

/-- C4 (counterexample): an existing file is deleted and truncated even
though its replacement fetch never succeeds — after the failing run the
old content is gone and an empty file remains, against the claim that the
file is never deleted or opened for writing before a successful fetch. -/
theorem c4_counterexample_old_content_lost :
    fetchFail "a".toList = Except.error OSErr.networkError
    ∧ (pullRepo litMatch [] fetchFail [blobItem "a".toList]
          { files := [("a".toList, "old".toList)], dirs := [] }).1.content "a".toList
        = some []
    ∧ (pullRepo litMatch [] fetchFail [blobItem "a".toList]
          { files := [("a".toList, "old".toList)], dirs := [] }).2
        = some OSErr.networkError :=
  ⟨rfl, by decide, by decide⟩

/-- C4 (witness): the delete-before-fetch theorem applied to a concrete
filesystem holding the file a with content old. -/
theorem c4_delete_and_truncate_before_fetch_witness :
    (blobItem "a".toList).type = "blob".toList
    ∧ (FS.mk [("a".toList, "old".toList)] []).isFile (blobItem "a".toList).path = true
    ∧ (pullRepoStep litMatch [] fetchFail (FS.mk [("a".toList, "old".toList)] [])
          (blobItem "a".toList)).2 = some OSErr.networkError
    ∧ (pullRepoStep litMatch [] fetchFail (FS.mk [("a".toList, "old".toList)] [])
          (blobItem "a".toList)).1.content (blobItem "a".toList).path = some [] :=
  ⟨rfl, by decide,
    (c4_delete_and_truncate_before_fetch litMatch [] fetchFail (blobItem "a".toList)
      (FS.mk [("a".toList, "old".toList)] []) OSErr.networkError rfl (by decide)
      (by decide) (by decide) rfl).1,
    (c4_delete_and_truncate_before_fetch litMatch [] fetchFail (blobItem "a".toList)
      (FS.mk [("a".toList, "old".toList)] []) OSErr.networkError rfl (by decide)
      (by decide) (by decide) rfl).2⟩

/-- C5 (amended): for a DIRECTORY entry, `pull_repo` calls the plain
`os.mkdir`: when the path is absent and its immediate parent exists the
single directory is created (missing parents are not created — they make
`os.mkdir` raise); when the path already exists, whether as directory or
as file, the entry falls into the logging else-branch: no filesystem
change, no exception, and no conflict outcome. -/
theorem c5_directory_entry_handling (rm : Str → Str → Bool) (ig : List Str)
    (fetch : Str → Except OSErr Str) (item : GitTreeElement) (fs : FS)
    (ht : item.type = "tree".toList) :
    (fs.pathExists item.path = false → fs.parentOk item.path = true →
        pullRepoStep rm ig fetch fs item = ({ fs with dirs := item.path :: fs.dirs }, none))
    ∧ (fs.pathExists item.path = false → fs.parentOk item.path = false →
        pullRepoStep rm ig fetch fs item = (fs, some (.fileNotFound item.path)))
    ∧ (fs.pathExists item.path = true →
        pullRepoStep rm ig fetch fs item = (fs, none)) := by
  have hnb : (("tree".toList : Str) == "blob".toList) = false := by decide
  refine ⟨?_, ?_, ?_⟩
  · intro hne hp
    simp [pullRepoStep, ht, hnb, hne, FS.mkdir, hp]
  · intro hne hp
    simp [pullRepoStep, ht, hnb, hne, FS.mkdir, hp]
  · intro hex
    simp [pullRepoStep, ht, hnb, hex]

/-- C5 (counterexample): a DIRECTORY entry at a/b with no local a is not
created together with its parent — `os.mkdir` raises and the run aborts
with nothing created, against the creates-missing-parents claim. -/
theorem c5_counterexample_missing_parent :
    (treeItem "a/b".toList).type = "tree".toList
    ∧ fsEmpty.pathExists "a/b".toList = false
    ∧ pullRepoStep litMatch [] (fetchConst "x".toList) fsEmpty (treeItem "a/b".toList)
        = (fsEmpty, some (OSErr.fileNotFound "a/b".toList))
    ∧ ¬("a/b".toList ∈ (pullRepoStep litMatch [] (fetchConst "x".toList) fsEmpty
          (treeItem "a/b".toList)).1.dirs) := by
  decide

/-- C5 (witness): the directory-handling theorem applied to a concrete
entry a over the empty filesystem (creation case) and over a filesystem
where a already exists as a file (no-op logging case). -/
theorem c5_directory_entry_handling_witness :
    fsEmpty.pathExists "a".toList = false
    ∧ fsEmpty.parentOk "a".toList = true
    ∧ pullRepoStep litMatch [] (fetchConst "x".toList) fsEmpty (treeItem "a".toList)
        = ({ files := [], dirs := ["a".toList] }, none)
    ∧ (FS.mk [("a".toList, "z".toList)] []).pathExists "a".toList = true
    ∧ pullRepoStep litMatch [] (fetchConst "x".toList)
        (FS.mk [("a".toList, "z".toList)] []) (treeItem "a".toList)
        = (FS.mk [("a".toList, "z".toList)] [], none) :=
  ⟨by decide, by decide,
    (c5_directory_entry_handling litMatch [] (fetchConst "x".toList)
      (treeItem "a".toList) fsEmpty rfl).1 (by decide) (by decide),
    by decide,
    (c5_directory_entry_handling litMatch [] (fetchConst "x".toList)
      (treeItem "a".toList) (FS.mk [("a".toList, "z".toList)] []) rfl).2.2 (by decide)⟩

/-- A successful `os.remove` leaves the directory set unchanged. -/
theorem remove_dirs_eq {fs : FS} {p : Str} {fs2 : FS}
    (h : fs.remove p = Except.ok fs2) : fs2.dirs = fs.dirs := by
  unfold FS.remove at h
  split_ifs at h
  all_goals first
    | exact Except.noConfusion h
    | (injection h with h; subst h; rfl)

/-- A successful truncating open leaves the directory set unchanged. -/
theorem openW_dirs_eq {fs : FS} {p : Str} {fs2 : FS}
    (h : fs.openW p = Except.ok fs2) : fs2.dirs = fs.dirs := by
  unfold FS.openW at h
  split_ifs at h
  all_goals first
    | exact Except.noConfusion h
    | (injection h with h; subst h; rfl)

/-- A successful `os.mkdir` pushes exactly the new directory. -/
theorem mkdir_dirs_eq {fs : FS} {p : Str} {fs2 : FS}
    (h : fs.mkdir p = Except.ok fs2) : fs2.dirs = p :: fs.dirs := by
  unfold FS.mkdir at h
  split_ifs at h
  all_goals first
    | exact Except.noConfusion h
    | (injection h with h; subst h; rfl)

/-- `pull_file` never touches the directory set. -/
theorem pullFile_dirs (fetch : Str → Except OSErr Str) (fs : FS) (dst src : Str) :
    (pullFile fetch fs dst src).1.dirs = fs.dirs := by
  unfold pullFile
  cases hw : fs.openW dst with
  | error e => rfl
  | ok fs1 =>
    have h1 : fs1.dirs = fs.dirs := openW_dirs_eq hw
    cases hf : fetch src with
    | error e => exact h1
    | ok c => exact h1

/-- One loop iteration of `pull_repo` leaves the directory set unchanged or
pushes the path of the processed entry. -/
theorem pullRepoStep_dirs (rm : Str → Str → Bool) (ig : List Str)
    (fetch : Str → Except OSErr Str) (fs : FS) (item : GitTreeElement) :
    (pullRepoStep rm ig fetch fs item).1.dirs = fs.dirs ∨
    (pullRepoStep rm ig fetch fs item).1.dirs = item.path :: fs.dirs := by
  simp only [pullRepoStep]
  by_cases hb : (item.type == "blob".toList) = true
  · rw [if_pos hb]
    by_cases hex : fs.pathExists item.path = true
    · rw [if_pos hex]
      cases hr : fs.remove item.path with
      | error e => left; rfl
      | ok fs1 =>
        left
        show (pullFile fetch fs1 item.path item.path).1.dirs = fs.dirs
        rw [pullFile_dirs]
        exact remove_dirs_eq hr
    · rw [if_neg hex]
      left
      exact pullFile_dirs fetch fs item.path item.path
  · rw [if_neg hb]
    by_cases ht : (item.type == "tree".toList && !fs.pathExists item.path) = true
    · rw [if_pos ht]
      cases hm : fs.mkdir item.path with
      | error e => left; rfl
      | ok fs1 =>
        right
        show fs1.dirs = item.path :: fs.dirs
        exact mkdir_dirs_eq hm
    · rw [if_neg ht]
      left
      rfl

/-- C6: reconciliation never deletes a directory — every directory present
before a run of `pull_repo` is still present afterwards, whatever the
matcher, ignore list, fetch behaviour, remote tree and local state. -/
theorem c6_no_directory_deleted (rm : Str → Str → Bool) (ig : List Str)
    (fetch : Str → Except OSErr Str) (tree : List GitTreeElement)
    (fs : FS) (d : Str) (hd : d ∈ fs.dirs) :
    d ∈ (pullRepo rm ig fetch tree fs).1.dirs := by
  induction tree generalizing fs with
  | nil => exact hd
  | cons item rest ih =>
    cases hst : pullRepoStep rm ig fetch fs item with
    | mk fs1 oe =>
      have hd1 : d ∈ fs1.dirs := by
        have hfst : fs1.dirs = (pullRepoStep rm ig fetch fs item).1.dirs := by rw [hst]
        rcases pullRepoStep_dirs rm ig fetch fs item with h | h
        · rw [hfst, h]; exact hd
        · rw [hfst, h]; exact List.mem_cons_of_mem _ hd
      cases oe with
      | none => simp only [pullRepo, hst]; exact ih fs1 hd1
      | some e => simp only [pullRepo, hst]; exact hd1

/-- C6 (witness): a concrete run over a blob and a directory entry starting
from a filesystem that already has the directory d. -/
theorem c6_no_directory_deleted_witness :
    "d".toList ∈ (FS.mk [] ["d".toList]).dirs
    ∧ "d".toList ∈ (pullRepo litMatch [] (fetchConst "x".toList)
        [blobItem "a".toList, treeItem "b".toList] (FS.mk [] ["d".toList])).1.dirs :=
  ⟨by decide,
    c6_no_directory_deleted litMatch [] (fetchConst "x".toList)
      [blobItem "a".toList, treeItem "b".toList] (FS.mk [] ["d".toList])
      "d".toList (by decide)⟩

/-- A successful read-open of a path means the file list is nonempty. -/
theorem openR_ok_files_ne_nil (fs : FS) (p : Str) (c : Str)
    (h : fs.openR p = Except.ok c) : fs.files ≠ [] := by
  intro hnil
  unfold FS.openR FS.content at h
  rw [hnil] at h
  split_ifs at h
  all_goals exact Except.noConfusion h

/-- The write loop of `backup_all` fails on its first item: the per-item
read-open either fails or the write to the read-only backup handle does. -/
theorem backupLoop_cons (fs : FS) (it : Str × Str) (tl : List (Str × Str)) :
    ∃ e, backupLoop fs (it :: tl) = (fs, some e) := by
  have hred : backupLoop fs (it :: tl) =
      match fs.openR it.1 with
      | Except.error e2 => (fs, some e2)
      | Except.ok _ => (fs, some OSErr.unsupportedOperation) := rfl
  rw [hred]
  cases hO : fs.openR it.1 with
  | error e1 => exact ⟨e1, rfl⟩
  | ok c1 => exact ⟨OSErr.unsupportedOperation, rfl⟩

/-- C9: `backup_all` opens its destination without a mode argument, hence
read-only — on every local filesystem state the call ends in an error (a
missing `ota.backup` fails the open; an existing one makes the archive file
itself part of the listed tree, so the first loop iteration writes to the
read-only handle) and the filesystem is left exactly as it was: no backup
archive is ever produced or modified. -/
theorem c9_backup_all_always_errors (sha1hex : Str → Str) (fs : FS) :
    (backupAll sha1hex fs).1 = fs ∧ ∃ e, (backupAll sha1hex fs).2 = some e := by
  cases hR : fs.openR "ota.backup".toList with
  | error e =>
    have hmain : backupAll sha1hex fs = (fs, some e) := by
      unfold backupAll
      rw [hR]
    rw [hmain]
    exact ⟨rfl, e, rfl⟩
  | ok c =>
    have hmain : backupAll sha1hex fs =
        backupLoop fs (buildInternalTreeRaw sha1hex fs) := by
      unfold backupAll
      rw [hR]
    obtain ⟨e0, tl, hfe⟩ :=
      List.exists_cons_of_ne_nil (openR_ok_files_ne_nil fs "ota.backup".toList c hR)
    have hbt : buildInternalTreeRaw sha1hex fs =
        (e0.1, sha1hex e0.2) :: tl.map (fun e => (e.1, sha1hex e.2)) := by
      unfold buildInternalTreeRaw
      rw [hfe]
      rfl
    obtain ⟨e1, hloop⟩ := backupLoop_cons fs (e0.1, sha1hex e0.2)
      (tl.map (fun e => (e.1, sha1hex e.2)))
    rw [hmain, hbt, hloop]
    exact ⟨rfl, e1, rfl⟩

/-- C10: the request-header dictionary is class-level shared state — after
a `GitManager` is constructed with a non-empty token, a later instance
constructed with an empty token still observes (and would send) the
authorization value bearer-token of the first instance. -/
theorem c10_shared_headers_leak_token (t : Str) (ht : t ≠ []) :
    (gitManagerInitHeaders [] (gitManagerInitHeaders t initHeaders)).auth =
      some ("bearer ".toList ++ t) := by
  have h1 : (t == ([] : Str)) = false := beq_eq_false_iff_ne.mpr ht
  unfold gitManagerInitHeaders
  simp [h1]

/-- C10 (witness): the shared-header theorem at the concrete token tok. -/
theorem c10_shared_headers_leak_token_witness :
    ("tok".toList ≠ ([] : Str))
    ∧ (gitManagerInitHeaders [] (gitManagerInitHeaders "tok".toList initHeaders)).auth =
        some ("bearer ".toList ++ "tok".toList) :=
  ⟨by decide, c10_shared_headers_leak_token "tok".toList (by decide)⟩

end Ota
